import Mathlib

/-!
# Verification of the key-service credential & secret core

Shallow embedding of the `key-service` repository (TypeScript) in Lean 4.

Strings are embedded as `List Char` (`Str`), JavaScript string helpers
(`trim`, `toLowerCase`, `toUpperCase`, `startsWith`, `slice`) as executable
functions on `Str`.  The relational store is a record of row lists with a
fresh-id counter standing in for generated uuids; `new Date()` timestamps
are `Nat` parameters threaded to each operation.  Header values are
`Option Str` (`none` = header absent).
-/

namespace KeyService

/-- Embedded JavaScript string: a list of characters. -/
abbrev Str := List Char

/-- ASCII whitespace, as relevant to the JS `trim` / `\s` uses in the source. -/
def isWs (c : Char) : Bool := c == ' ' || c == '\t' || c == '\n' || c == '\r'

/-- JS `String.prototype.trim`: drop whitespace from both ends. -/
def trim (s : Str) : Str := ((s.dropWhile isWs).reverse.dropWhile isWs).reverse

/-- JS `String.prototype.toLowerCase` (ASCII). -/
def toLower (s : Str) : Str := s.map Char.toLower

/-- JS `String.prototype.toUpperCase` (ASCII). -/
def toUpper (s : Str) : Str := s.map Char.toUpper

/-! ## `src/lib/api-key.ts` (current version, `distrib.` family) -/

/-- `generateApiKey`: `distrib.usr_<40 hex chars>`; the 160-bit random hex
suffix is passed in explicitly (randomness injection). -/
def mkUserApiKey (hex : Str) : Str := "distrib.usr_".data ++ hex

/-- `generateAppApiKey`: `distrib.app_<40 hex chars>`. -/
def mkAppApiKey (hex : Str) : Str := "distrib.app_".data ++ hex

/-- One lowercase-hex character class `[a-f0-9]`. -/
def isHexChar (c : Char) : Bool := ('a' ≤ c && c ≤ 'f') || ('0' ≤ c && c ≤ '9')

/-- 40 lowercase hex characters: the `[a-f0-9]{40}$` part of the key regex. -/
def hexTail40 (s : Str) : Bool := s.length == 40 && s.all isHexChar

/-- `isValidApiKeyFormat`: `/^(distrib\.usr_|mcpf_usr_)[a-f0-9]{40}$/`. -/
def isValidApiKeyFormat (k : Str) : Bool :=
  ("distrib.usr_".data.isPrefixOf k && hexTail40 (k.drop 12)) ||
  ("mcpf_usr_".data.isPrefixOf k && hexTail40 (k.drop 9))

/-- `isAppApiKey`: starts with `distrib.app_` or legacy `mcpf_app_`. -/
def isAppApiKey (k : Str) : Bool :=
  "distrib.app_".data.isPrefixOf k || "mcpf_app_".data.isPrefixOf k

/-- `isUserApiKey`: starts with `distrib.usr_` or legacy `mcpf_usr_`. -/
def isUserApiKey (k : Str) : Bool :=
  "distrib.usr_".data.isPrefixOf k || "mcpf_usr_".data.isPrefixOf k

/-- `hasValidPrefix` in the source: key uses a recognized family
(`distrib.` or legacy `mcpf_`).  Renamed here. -/
def hasRecognizedPref (k : Str) : Bool :=
  "distrib.".data.isPrefixOf k || "mcpf_".data.isPrefixOf k

/-- `hashApiKey`: the source computes the SHA-256 hex digest
(`crypto.createHash("sha256")`).  The digest internals are idealized as a
concrete injective deterministic fingerprint, which is the property the
service relies on (equal keys hash equal, distinct keys hash distinct). -/
def hashApiKey (k : Str) : Str := "sha256:".data ++ k

/-- `getKeyPrefix` in the source: first 12 characters for display.
Renamed here. -/
def getKeyPref (k : Str) : Str := k.take 12

/-! ## `src/db/schema.ts`: the row store -/

/-- A row of `orgs` (`id` uuid modelled as `Nat`, `org_id` text). -/
structure OrgRow where
  pk : Nat
  orgId : Str
  createdAt : Nat
  deriving Repr, DecidableEq

/-- A row of `api_keys`.  `orgId` is the foreign key to `orgs.id`. -/
structure ApiKeyRow where
  id : Nat
  orgId : Nat
  keyHash : Str
  keyPref : Str
  encryptedKey : Option Str
  name : Option Str
  createdAt : Nat
  lastUsedAt : Option Nat
  deriving Repr, DecidableEq

/-- A row of `apps`.  Note: the table has no last-used column. -/
structure AppRow where
  id : Nat
  name : Str
  keyHash : Str
  keyPref : Str
  createdAt : Nat
  deriving Repr, DecidableEq

/-- A row of `byok_keys`.  `orgPk` is the foreign key to `orgs.id`. -/
structure ByokRow where
  id : Nat
  orgPk : Nat
  provider : Str
  encryptedKey : Str
  createdAt : Nat
  updatedAt : Nat
  deriving Repr, DecidableEq

/-- A row of `provider_requirements` (unique on service+method+path+provider). -/
structure ProviderReqRow where
  id : Nat
  service : Str
  method : Str
  path : Str
  provider : Str
  lastSeenAt : Nat
  createdAt : Nat
  deriving Repr, DecidableEq

/-- The relational store: the tables the verified core touches, plus a
counter supplying fresh primary keys (in place of generated uuids). -/
structure Db where
  nextId : Nat
  orgs : List OrgRow
  apiKeys : List ApiKeyRow
  apps : List AppRow
  byokKeys : List ByokRow
  providerRequirements : List ProviderReqRow
  deriving Repr, DecidableEq

/-- The empty store. -/
def emptyDb : Db := ⟨0, [], [], [], [], []⟩

/-- The `update(apiKeys).set({lastUsedAt}).where(eq(apiKeys.id, rid))`
statement: set `lastUsedAt` on the rows with the given id. -/
def setLastUsed (rows : List ApiKeyRow) (rid : Nat) (now : Nat) : List ApiKeyRow :=
  rows.map (fun r => if r.id = rid then { r with lastUsedAt := some now } else r)

/-- The `update(providerRequirements).set({lastSeenAt}).where(eq(id, rid))`
statement: set `lastSeenAt` on the rows with the given id. -/
def setLastSeen (rows : List ProviderReqRow) (rid : Nat) (now : Nat) :
    List ProviderReqRow :=
  rows.map (fun r => if r.id = rid then { r with lastSeenAt := now } else r)

/-! ## `src/middleware/auth.ts` -/

/-- JS `a || b` over header values: an absent (`undefined`) or empty-string
header is falsy and falls through to the second operand. -/
def firstTruthy (a b : Option Str) : Option Str :=
  match a with
  | some v => if v = [] then b else some v
  | none => b

/-- `authHeader.replace(/^Bearer\s+/i, "")`: strip a case-insensitive
`Bearer` followed by one or more whitespace characters, greedily. -/
def stripBearer (s : Str) : Str :=
  if toLower (s.take 6) = "bearer".data then
    match s.drop 6 with
    | [] => s
    | c :: rest => if isWs c then rest.dropWhile isWs else s
  else s

/-- Outcome of `serviceKeyAuth`: 500 not-configured, 401 rejected, or pass. -/
inductive SvcAuth where
  | notConfigured
  | rejected
  | ok
  deriving Repr, DecidableEq

/-- `serviceKeyAuth(req, res, next)`: compare the caller-supplied secret
(`x-api-key` header, else `authorization`) against the
`KEY_SERVICE_API_KEY` environment value.  `envKey = none` (unset) or
`some []` (empty string) is falsy and yields the 500 branch. -/
def serviceKeyAuth (envKey xApiKey authz : Option Str) : SvcAuth :=
  match envKey with
  | none => .notConfigured
  | some sk =>
    if sk = [] then .notConfigured
    else
      match firstTruthy xApiKey authz with
      | none => .rejected
      | some h =>
        let provided := stripBearer h
        if provided = [] then .rejected
        else if provided = sk then .ok else .rejected

/-- Outcome of `apiKeyAuth`: a JSON error with an HTTP status, or a resolved
app identity (`req.appId = app.name`) or user identity (`req.orgId`). -/
inductive AuthRes where
  | errRes (status : Nat) (msg : String)
  | okApp (appId : Str)
  | okUser (orgPk : Nat)
  deriving Repr, DecidableEq

/-- The body of `apiKeyAuth` from `const key = authHeader.slice(7)` on:
gate on the hardcoded `mcpf_` key prefix, then hash and look up; a
successful user-key resolution sets that row's `lastUsedAt` to now. -/
def apiKeyAuthKey (key : Str) (db : Db) (now : Nat) : AuthRes × Db :=
  if "mcpf_".data.isPrefixOf key then
    let keyHash := hashApiKey key
    if isAppApiKey key then
      match db.apps.find? (fun a => a.keyHash == keyHash) with
      | none => (.errRes 401 "Invalid API key", db)
      | some app => (.okApp app.name, db)
    else
      match db.apiKeys.find? (fun r => r.keyHash == keyHash) with
      | none => (.errRes 401 "Invalid API key", db)
      | some row =>
        (.okUser row.orgId, { db with apiKeys := setLastUsed db.apiKeys row.id now })
  else (.errRes 401 "Invalid API key format", db)

/-- `apiKeyAuth(req, res, next)`: resolve a bearer credential: require the
literal `Bearer ` scheme, slice it off, and run the key logic. -/
def apiKeyAuth (authz : Option Str) (db : Db) (now : Nat) : AuthRes × Db :=
  match authz with
  | none => (.errRes 401 "Missing authorization header", db)
  | some h =>
    if "Bearer ".data.isPrefixOf h then apiKeyAuthKey (h.drop 7) db now
    else (.errRes 401 "Missing authorization header", db)

/-! ## `src/lib/caller-headers.ts` -/

/-- Caller-identification metadata extracted from the three headers. -/
structure CallerInfo where
  service : Str
  method : Str
  path : Str
  deriving Repr, DecidableEq

/-- `extractCallerHeaders(req)`: `none` if any of `x-caller-service`,
`x-caller-method`, `x-caller-path` is absent or empty after trimming; else
the trimmed values with service lowercased and method uppercased. -/
def extractCallerHeaders (service method path : Option Str) : Option CallerInfo :=
  match service, method, path with
  | some s, some m, some p =>
    if trim s = [] ∨ trim m = [] ∨ trim p = [] then none
    else some ⟨toLower (trim s), toUpper (trim m), trim p⟩
  | _, _, _ => none

/-! ## `src/lib/provider-registry.ts` -/

/-- The `where` clause of the registry lookup: all four columns equal. -/
def reqMatches (r : ProviderReqRow) (c : CallerInfo) (provider : Str) : Bool :=
  r.service == c.service && r.method == c.method && r.path == c.path &&
    r.provider == provider

/-- The read step of `recordProviderRequirement`:
`db.query.providerRequirements.findFirst(...)`. -/
def recordRead (db : Db) (c : CallerInfo) (provider : Str) : Option ProviderReqRow :=
  db.providerRequirements.find? (fun r => reqMatches r c provider)

/-- The dependent write step of `recordProviderRequirement`: update
`lastSeenAt` of the row found by the read, or insert a fresh row. -/
def recordWrite (db : Db) (c : CallerInfo) (provider : Str)
    (existing : Option ProviderReqRow) (now : Nat) : Db :=
  match existing with
  | some ex =>
    { db with providerRequirements := setLastSeen db.providerRequirements ex.id now }
  | none =>
    { db with
      nextId := db.nextId + 1,
      providerRequirements := db.providerRequirements ++
        [⟨db.nextId, c.service, c.method, c.path, provider, now, now⟩] }

/-- `recordProviderRequirement(caller, provider)`: findFirst on the
4-tuple; if found, update only `lastSeenAt`; else insert a new row with
both timestamps set to now. -/
def recordProviderRequirement (db : Db) (c : CallerInfo) (provider : Str)
    (now : Nat) : Db :=
  match db.providerRequirements.find? (fun r => reqMatches r c provider) with
  | some ex =>
    { db with providerRequirements := setLastSeen db.providerRequirements ex.id now }
  | none =>
    { db with
      nextId := db.nextId + 1,
      providerRequirements := db.providerRequirements ++
        [⟨db.nextId, c.service, c.method, c.path, provider, now, now⟩] }

/-- Number of stored requirement rows for one (service, method, path,
provider) tuple. -/
def countReq (db : Db) (c : CallerInfo) (provider : Str) : Nat :=
  (db.providerRequirements.filter (fun r => reqMatches r c provider)).length

/-! ## `src/lib/crypto.ts`

Modelled from the spec: `src/lib/crypto.ts` itself is not among the
provided sources (only its import sites are), so `encrypt`, `decrypt` and
`maskKey` are modelled from the spec contract: AES-256-GCM with a fresh
96-bit nonce per call (the nonce is an explicit parameter here), a 128-bit
authentication tag, wire format `<hex nonce>:<hex authTag>:<hex ciphertext>`,
tag verified before any plaintext is returned, failure (`DecryptionError`,
here `none`) on tag mismatch or wrong component count.  The AES-GCM
keystream and tag functions are abstracted as concrete deterministic
byte-level functions; plaintexts are byte lists. -/

/-- One lowercase hex digit, as produced by `Buffer.toString("hex")`. -/
def hexDigitChar (n : Nat) : Char :=
  match n with
  | 0 => '0' | 1 => '1' | 2 => '2' | 3 => '3' | 4 => '4'
  | 5 => '5' | 6 => '6' | 7 => '7' | 8 => '8' | 9 => '9'
  | 10 => 'a' | 11 => 'b' | 12 => 'c' | 13 => 'd' | 14 => 'e' | 15 => 'f'
  | _ => '0'

/-- Hex encoding of one byte (two lowercase hex characters). -/
def hexByte (b : Nat) : Str := [hexDigitChar (b / 16), hexDigitChar (b % 16)]

/-- Hex encoding of a byte sequence. -/
def hexBytes : List Nat → Str
  | [] => []
  | b :: t => hexByte b ++ hexBytes t

/-- Value of one hex character, `none` for a non-hex character. -/
def hexVal (c : Char) : Option Nat :=
  if '0' ≤ c && c ≤ '9' then some (c.toNat - '0'.toNat)
  else if 'a' ≤ c && c ≤ 'f' then some (c.toNat - 'a'.toNat + 10)
  else none

/-- Hex decoding (`Buffer.from(s, "hex")`); fails on odd length or a
non-hex character. -/
def unhex : Str → Option (List Nat)
  | [] => some []
  | c1 :: c2 :: rest =>
    match hexVal c1, hexVal c2, unhex rest with
    | some hi, some lo, some t => some ((hi * 16 + lo) :: t)
    | _, _, _ => none
  | [_] => none

/-- Split a string on `:` (JS `String.prototype.split(":")`). -/
def splitColon : Str → List Str
  | [] => [[]]
  | c :: rest =>
    if c = ':' then [] :: splitColon rest
    else
      match splitColon rest with
      | t :: ts => (c :: t) :: ts
      | [] => [[c]]

/-- Abstract GCM keystream byte at position `i`, a concrete deterministic
function of key and nonce; always < 256. -/
def ksByte (key iv : List Nat) (i : Nat) : Nat :=
  (key.getD (i % 32) 0 + iv.getD (i % 12) 0 + i) % 256

/-- XOR a byte sequence against the keystream starting at position `i`
(the GCM CTR core; applying it twice restores the input). -/
def xorKs (key iv : List Nat) : Nat → List Nat → List Nat
  | _, [] => []
  | i, b :: t => (b ^^^ ksByte key iv i) :: xorKs key iv (i + 1) t

/-- Abstract 128-bit (16-byte) authentication tag: a concrete deterministic
function of key, nonce and ciphertext. -/
def tagBytes (key iv ct : List Nat) : List Nat :=
  (List.range 16).map (fun j => (key.getD j 0 + iv.getD (j % 12) 0 + ct.foldl (· + ·) 0 + j) % 256)

/-- `encrypt(plaintext)`: authenticated ciphertext serialized as
`<hex nonce>:<hex authTag>:<hex ciphertext>`. -/
def encrypt (key iv p : List Nat) : Str :=
  hexBytes iv ++ ':' :: (hexBytes (tagBytes key iv (xorKs key iv 0 p)) ++ ':' :: hexBytes (xorKs key iv 0 p))

/-- `decrypt(serialized)`: split into exactly three components, decode,
verify the tag, and only then return the plaintext; `none` models
`DecryptionError` (malformed input, tag mismatch, wrong key). -/
def decrypt (key : List Nat) (s : Str) : Option (List Nat) :=
  match splitColon s with
  | [ivh, tagh, cth] =>
    match unhex ivh, unhex tagh, unhex cth with
    | some iv, some tag, some ct =>
      if tag = tagBytes key iv ct then some (xorKs key iv 0 ct) else none
    | _, _, _ => none
  | _ => none

/-- `maskKey(plaintext)`: fixed-shape redaction — a constant number of
leading bytes followed by a constant-length masking marker. -/
def maskKey (p : List Nat) : List Nat := p.take 4 ++ List.replicate 8 ('*'.toNat)

/-! ## `src/routes/internal.ts` -/

/-- `VALID_PROVIDERS` (also the zod `provider` enum). -/
def VALID_PROVIDERS : List Str :=
  ["apollo".data, "anthropic".data, "instantly".data, "firecrawl".data]

/-- `ensureOrg(orgId)`: find the org by external id, inserting a fresh row
if absent; returns the internal primary key (the uuid in the source). -/
def ensureOrg (db : Db) (extOrg : Str) (now : Nat) : Nat × Db :=
  match db.orgs.find? (fun o => o.orgId == extOrg) with
  | some o => (o.pk, db)
  | none =>
    (db.nextId, { db with nextId := db.nextId + 1, orgs := db.orgs ++ [⟨db.nextId, extOrg, now⟩] })

/-- The BYOK-key lookup `findFirst(where orgId = _ and provider = _)`. -/
def byokFind (rows : List ByokRow) (orgPk : Nat) (provider : Str) : Option ByokRow :=
  rows.find? (fun k => k.orgPk == orgPk && k.provider == provider)

/-- `update(byokKeys).set({encryptedKey, updatedAt}).where(eq(id, rid))`. -/
def setByokEnc (rows : List ByokRow) (rid : Nat) (enc : Str) (now : Nat) : List ByokRow :=
  rows.map (fun k => if k.id = rid then { k with encryptedKey := enc, updatedAt := now } else k)

/-- Outcome of `POST /internal/keys`. -/
inductive PostByokRes where
  | badReq (msg : String)
  | okSaved (provider : Str) (maskedKey : List Nat)
  deriving Repr, DecidableEq

/-- `POST /internal/keys`: validate (zod: non-empty orgId, provider in the
enum, non-empty apiKey), ensure the org, encrypt, then upsert the BYOK
row.  `iv` is the fresh nonce drawn by `encrypt` for this call. -/
def postByokKey (db : Db) (encKey iv : List Nat) (orgId? : Option Str)
    (provider : Str) (apiKey : List Nat) (now : Nat) : PostByokRes × Db :=
  match orgId? with
  | none => (.badReq "Invalid request", db)
  | some extOrg =>
    if extOrg = [] ∨ apiKey = [] ∨ ¬ provider ∈ VALID_PROVIDERS then
      (.badReq "Invalid request", db)
    else
      let eo := ensureOrg db extOrg now
      let enc := encrypt encKey iv apiKey
      match byokFind eo.2.byokKeys eo.1 provider with
      | some ex =>
        (.okSaved provider (maskKey apiKey),
         { eo.2 with byokKeys := setByokEnc eo.2.byokKeys ex.id enc now })
      | none =>
        (.okSaved provider (maskKey apiKey),
         { eo.2 with
             nextId := eo.2.nextId + 1,
             byokKeys := eo.2.byokKeys ++ [⟨eo.2.nextId, eo.1, provider, enc, now, now⟩] })

/-- Outcome of a decrypt-class route. -/
inductive DecryptRes where
  | badReq (msg : String)
  | notFound
  | okKey (provider : Str) (key : List Nat)
  | serverErr
  deriving Repr, DecidableEq

/-- `GET /internal/keys/:provider/decrypt`: require `orgId`, then the three
caller headers, ensure the org, look up the secret (404 when absent),
record the provider requirement, and only then decrypt (a decrypt failure
is caught as a 500 after the requirement write). -/
def internalByokDecrypt (db : Db) (encKey : List Nat) (provider : Str)
    (orgId? : Option Str) (hService hMethod hPath : Option Str) (now : Nat) :
    DecryptRes × Db :=
  match orgId? with
  | none => (.badReq "orgId required", db)
  | some extOrg =>
    if extOrg = [] then (.badReq "orgId required", db)
    else
      match extractCallerHeaders hService hMethod hPath with
      | none =>
        (.badReq "Missing required headers: X-Caller-Service, X-Caller-Method, X-Caller-Path", db)
      | some caller =>
        let eo := ensureOrg db extOrg now
        match byokFind eo.2.byokKeys eo.1 provider with
        | none => (.notFound, eo.2)
        | some key =>
          let db2 := recordProviderRequirement eo.2 caller provider now
          match decrypt encKey key.encryptedKey with
          | some plain => (.okKey provider plain, db2)
          | none => (.serverErr, db2)

/-- Displayed projection of an `api_keys` row (`GET /internal/api-keys`). -/
structure ApiKeyView where
  id : Nat
  keyPref : Str
  name : Option Str
  createdAt : Nat
  lastUsedAt : Option Nat
  deriving Repr, DecidableEq

/-- Outcome of `GET /internal/api-keys`. -/
inductive ListKeysRes where
  | badReq (msg : String)
  | okKeys (keys : List ApiKeyView)
  deriving Repr, DecidableEq

/-- `GET /internal/api-keys`: require `orgId`, ensure the org (creating it
when unknown), and list that org's credential rows. -/
def listApiKeys (db : Db) (orgId? : Option Str) (now : Nat) : ListKeysRes × Db :=
  match orgId? with
  | none => (.badReq "orgId required", db)
  | some extOrg =>
    if extOrg = [] then (.badReq "orgId required", db)
    else
      let eo := ensureOrg db extOrg now
      (.okKeys ((eo.2.apiKeys.filter (fun k => k.orgId == eo.1)).map
        (fun k => ⟨k.id, k.keyPref, k.name, k.createdAt, k.lastUsedAt⟩)), eo.2)

/-- Displayed projection of a `byok_keys` row (`GET /internal/keys`). -/
structure ByokView where
  provider : Str
  maskedKey : List Nat
  createdAt : Nat
  updatedAt : Nat
  deriving Repr, DecidableEq

/-- Outcome of `GET /internal/keys`. -/
inductive ListByokRes where
  | badReq (msg : String)
  | okByok (keys : List ByokView)
  | serverErr
  deriving Repr, DecidableEq

/-- `GET /internal/keys`: require `orgId`, ensure the org, and list that
org's BYOK rows masked (`maskKey(decrypt(...))`); a decrypt failure is
caught as a 500, after the org row was already ensured. -/
def listByokKeys (db : Db) (encKey : List Nat) (orgId? : Option Str) (now : Nat) :
    ListByokRes × Db :=
  match orgId? with
  | none => (.badReq "orgId required", db)
  | some extOrg =>
    if extOrg = [] then (.badReq "orgId required", db)
    else
      let eo := ensureOrg db extOrg now
      match (eo.2.byokKeys.filter (fun k => k.orgPk == eo.1)).mapM
          (fun k => (decrypt encKey k.encryptedKey).map
            (fun p => ByokView.mk k.provider (maskKey p) k.createdAt k.updatedAt)) with
      | some views => (.okByok views, eo.2)
      | none => (.serverErr, eo.2)

/-- Outcome of `GET /validate/keys/:provider`. -/
inductive ValidateRes where
  | authErr (status : Nat) (msg : String)
  | badReq (msg : String)
  | notFound
  | okKey (provider : Str) (key : List Nat)
  | serverErr
  deriving Repr, DecidableEq

/-- `GET /validate/keys/:provider`: `apiKeyAuth` middleware first (its
`lastUsedAt` side effect persists), reject app keys, then the caller
headers, the secret lookup (404 when absent), the requirement write, and
the decrypt. -/
def validateKeysRoute (db : Db) (encKey : List Nat) (authz : Option Str)
    (provider : Str) (hService hMethod hPath : Option Str) (now : Nat) :
    ValidateRes × Db :=
  match apiKeyAuth authz db now with
  | (.errRes s m, db1) => (.authErr s m, db1)
  | (.okApp _, db1) =>
    (.badReq "BYOK key lookup requires a user API key, not an app key", db1)
  | (.okUser orgPk, db1) =>
    match extractCallerHeaders hService hMethod hPath with
    | none =>
      (.badReq "Missing required headers: X-Caller-Service, X-Caller-Method, X-Caller-Path", db1)
    | some caller =>
      match byokFind db1.byokKeys orgPk provider with
      | none => (.notFound, db1)
      | some key =>
        let db2 := recordProviderRequirement db1 caller provider now
        match decrypt encKey key.encryptedKey with
        | some plain => (.okKey provider plain, db2)
        | none => (.serverErr, db2)

/-! ## `POST /internal/provider-requirements` -/

/-- One endpoint of the batch query body. -/
structure Endpoint where
  service : Str
  method : Str
  path : Str
  deriving Repr, DecidableEq

/-- Projection of a requirement row pushed into the query results. -/
structure ReqView where
  service : Str
  method : Str
  path : Str
  provider : Str
  deriving Repr, DecidableEq

/-- The query's `where` clause: service lowercased, method uppercased,
path compared verbatim. -/
def endpointMatches (r : ProviderReqRow) (e : Endpoint) : Bool :=
  r.service == toLower e.service && r.method == toUpper e.method && r.path == e.path

/-- Projection of a matched row. -/
def viewOf (r : ProviderReqRow) : ReqView := ⟨r.service, r.method, r.path, r.provider⟩

/-- The results loop: for each endpoint in order, push every matching row. -/
def queryMatches (rows : List ProviderReqRow) : List Endpoint → List ReqView
  | [] => []
  | e :: es => (rows.filter (fun r => endpointMatches r e)).map viewOf ++ queryMatches rows es

/-- `[...new Set(xs)]`: de-duplicate keeping first occurrences. -/
def dedupFirst : List Str → List Str
  | [] => []
  | a :: t => a :: dedupFirst (t.filter (fun b => !(b == a)))
  termination_by l => l.length
  decreasing_by simpa using Nat.lt_succ_of_le (List.length_filter_le _ t)

/-- `.sort()` on the de-duplicated provider names (lexicographic). -/
def sortStr (l : List Str) : List Str := List.insertionSort (· ≤ ·) l

/-- The full result of the query core: matches plus sorted, de-duplicated
provider names across all matches. -/
def queryCore (rows : List ProviderReqRow) (endpoints : List Endpoint) :
    List ReqView × List Str :=
  let results := queryMatches rows endpoints
  (results, sortStr (dedupFirst (results.map (fun r => r.provider))))

/-- Outcome of `POST /internal/provider-requirements`. -/
inductive QueryRes where
  | badReq (msg : String)
  | okReqs (requirements : List ReqView) (providers : List Str)
  deriving Repr, DecidableEq

/-- `POST /internal/provider-requirements`: validate (zod: at least one
endpoint, each field non-empty), then run the query; no store writes. -/
def providerRequirementsQuery (db : Db) (endpoints : List Endpoint) : QueryRes × Db :=
  if endpoints = [] ∨ endpoints.any (fun e => e.service == [] || e.method == [] || e.path == []) then
    (.badReq "Invalid request", db)
  else
    let q := queryCore db.providerRequirements endpoints
    (.okReqs q.1 q.2, db)

/-! ## Derived notions and concrete fixtures used by the theorems -/

/-- N sequential calls of `recordProviderRequirement` for one tuple, at the
given sequence of observation times. -/
def foldRecord (db : Db) (c : CallerInfo) (p : Str) (ts : List Nat) : Db :=
  ts.foldl (fun d t => recordProviderRequirement d c p t) db

/-- The tuple's `lastSeenAt` value observed after each successive call
(0 if the row is absent, which never happens in the verified runs). -/
def lastSeenTrace (db : Db) (c : CallerInfo) (p : Str) : List Nat → List Nat
  | [] => []
  | t :: ts =>
    ((recordRead (recordProviderRequirement db c p t) c p).map (fun r => r.lastSeenAt)).getD 0 ::
      lastSeenTrace (recordProviderRequirement db c p t) c p ts

/-- Store well-formedness: every stored primary/foreign key is below the
fresh-id counter (uuids are never re-generated). -/
def DbWf (db : Db) : Prop :=
  (∀ o ∈ db.orgs, o.pk < db.nextId) ∧
  (∀ k ∈ db.apiKeys, k.orgId < db.nextId) ∧
  (∀ b ∈ db.byokKeys, b.orgPk < db.nextId)

instance (db : Db) : Decidable (DbWf db) := by
  unfold DbWf; infer_instance

/-- A 40-character hex suffix fixture. -/
def hex40a : Str := List.replicate 40 'a'

/-- Caller fixture: the apollo leads-search endpoint. -/
def cAp : CallerInfo := ⟨"apollo".data, "POST".data, "/leads/search".data⟩

/-- Provider fixture. -/
def pAnth : Str := "anthropic".data

/-- Store fixture holding the hash of a freshly generated (current-family)
user credential for org-1. -/
def dbC3 : Db :=
  { nextId := 2,
    orgs := [⟨0, "org-1".data, 0⟩],
    apiKeys := [⟨1, 0, hashApiKey (mkUserApiKey hex40a), getKeyPref (mkUserApiKey hex40a),
                 none, none, 0, none⟩],
    apps := [], byokKeys := [], providerRequirements := [] }

/-- A legacy-family app credential fixture. -/
def appKeyRaw : Str := "mcpf_app_".data ++ hex40a

/-- Store fixture holding the registered app for `appKeyRaw`. -/
def dbApp : Db :=
  { nextId := 1, orgs := [], apiKeys := [],
    apps := [⟨0, "frontend".data, hashApiKey appKeyRaw, getKeyPref appKeyRaw, 0⟩],
    byokKeys := [], providerRequirements := [] }

/-- A legacy-family user credential fixture. -/
def userKeyRaw : Str := "mcpf_usr_".data ++ hex40a

/-- Store fixture holding the user-credential row for `userKeyRaw`. -/
def dbUser : Db :=
  { nextId := 2,
    orgs := [⟨0, "org-1".data, 0⟩],
    apiKeys := [⟨1, 0, hashApiKey userKeyRaw, getKeyPref userKeyRaw, none, none, 0, none⟩],
    apps := [], byokKeys := [], providerRequirements := [] }

/-! ## Theorems -/

/-! ### Crypto envelope lemmas -/

theorem hexDigitChar_ne_colon (n : Nat) : hexDigitChar n ≠ ':' := by
  unfold hexDigitChar; split <;> decide

theorem hexVal_hexDigitChar {n : Nat} (h : n < 16) : hexVal (hexDigitChar n) = some n := by
  interval_cases n <;> decide

theorem colon_not_mem_hexBytes (l : List Nat) : ':' ∉ hexBytes l := by
  induction l with
  | nil => simp [hexBytes]
  | cons b t ih =>
    simp only [hexBytes, hexByte, List.mem_append, List.mem_cons, List.not_mem_nil]
    rintro ((h | h | h) | h)
    · exact hexDigitChar_ne_colon _ h.symm
    · exact hexDigitChar_ne_colon _ h.symm
    · exact h
    · exact ih h

theorem unhex_hexBytes (l : List Nat) (h : ∀ b ∈ l, b < 256) :
    unhex (hexBytes l) = some l := by
  induction l with
  | nil => rfl
  | cons b t ih =>
    have hb : b < 256 := h b (by simp)
    have h1 : b / 16 < 16 := by omega
    have h2 : b % 16 < 16 := Nat.mod_lt _ (by norm_num)
    show unhex (hexDigitChar (b / 16) :: hexDigitChar (b % 16) :: hexBytes t) = some (b :: t)
    rw [show unhex (hexDigitChar (b / 16) :: hexDigitChar (b % 16) :: hexBytes t) =
        match hexVal (hexDigitChar (b / 16)), hexVal (hexDigitChar (b % 16)), unhex (hexBytes t) with
        | some hi, some lo, some tl => some ((hi * 16 + lo) :: tl)
        | _, _, _ => none from rfl,
      hexVal_hexDigitChar h1, hexVal_hexDigitChar h2, ih (fun b hb => h b (by simp [hb]))]
    have : b / 16 * 16 + b % 16 = b := by omega
    simp [this]

theorem splitColon_of_not_mem {s : Str} (h : ':' ∉ s) : splitColon s = [s] := by
  induction s with
  | nil => rfl
  | cons c rest ih =>
    have hc : ¬ c = ':' := fun hh => h (by simp [hh])
    have hr := ih (fun hh => h (by simp [hh]))
    simp only [splitColon, if_neg hc, hr]

theorem splitColon_append {a : Str} (rest : Str) (h : ':' ∉ a) :
    splitColon (a ++ ':' :: rest) = a :: splitColon rest := by
  induction a with
  | nil => simp [splitColon]
  | cons c t ih =>
    have hc : ¬ c = ':' := fun hh => h (by simp [hh])
    have ht := ih (fun hh => h (by simp [hh]))
    simp only [List.cons_append, splitColon, if_neg hc]
    rw [show t.append (':' :: rest) = t ++ ':' :: rest from rfl, ht]

theorem ksByte_lt (key iv : List Nat) (i : Nat) : ksByte key iv i < 256 :=
  Nat.mod_lt _ (by norm_num)

theorem xorKs_xorKs (key iv : List Nat) (p : List Nat) :
    ∀ i, xorKs key iv i (xorKs key iv i p) = p := by
  induction p with
  | nil => intro i; rfl
  | cons b t ih =>
    intro i
    simp only [xorKs, Nat.xor_cancel_right, ih (i + 1)]

theorem xorKs_lt (key iv : List Nat) (p : List Nat) (hp : ∀ b ∈ p, b < 256) :
    ∀ i, ∀ b ∈ xorKs key iv i p, b < 256 := by
  induction p with
  | nil => intro i b hb; simp [xorKs] at hb
  | cons a t ih =>
    intro i b hb
    simp only [xorKs, List.mem_cons] at hb
    rcases hb with hb | hb
    · subst hb
      have h1 : a < 2 ^ 8 := hp a (by simp)
      have h2 : ksByte key iv i < 2 ^ 8 := ksByte_lt key iv i
      exact Nat.xor_lt_two_pow h1 h2
    · exact ih (fun x hx => hp x (by simp [hx])) (i + 1) b hb

theorem tagBytes_lt (key iv ct : List Nat) : ∀ b ∈ tagBytes key iv ct, b < 256 := by
  intro b hb
  simp only [tagBytes, List.mem_map] at hb
  obtain ⟨j, _, hj⟩ := hb
  omega

/-- The pure round-trip core: splitting, decoding, tag check and keystream
inversion undo `encrypt` exactly. -/
theorem decrypt_encrypt (key iv p : List Nat)
    (hiv : ∀ b ∈ iv, b < 256) (hp : ∀ b ∈ p, b < 256) :
    decrypt key (encrypt key iv p) = some p := by
  have hct : ∀ b ∈ xorKs key iv 0 p, b < 256 := xorKs_lt key iv p hp 0
  unfold encrypt decrypt
  rw [splitColon_append _ (colon_not_mem_hexBytes iv),
    splitColon_append _ (colon_not_mem_hexBytes _),
    splitColon_of_not_mem (colon_not_mem_hexBytes _)]
  change (match unhex (hexBytes iv), unhex (hexBytes (tagBytes key iv (xorKs key iv 0 p))),
      unhex (hexBytes (xorKs key iv 0 p)) with
    | some iv2, some tag, some ct =>
      if tag = tagBytes key iv2 ct then some (xorKs key iv2 0 ct) else none
    | _, _, _ => none) = some p
  rw [unhex_hexBytes iv hiv,
    unhex_hexBytes _ (tagBytes_lt key iv (xorKs key iv 0 p)),
    unhex_hexBytes _ hct]
  simp [xorKs_xorKs]

/-- `find?` over a map whose function preserves the predicate. -/
theorem find?_map_invariant {α : Type} (g : α → α) (q : α → Bool)
    (h : ∀ a, q (g a) = q a) : ∀ l : List α, (l.map g).find? q = (l.find? q).map g := by
  intro l
  induction l with
  | nil => rfl
  | cons a t ih =>
    by_cases hq : q a
    · rw [List.map_cons, List.find?_cons_of_pos _ (by rw [h]; exact hq),
        List.find?_cons_of_pos _ hq, Option.map_some']
    · rw [List.map_cons, List.find?_cons_of_neg _ (by rw [h]; exact hq),
        List.find?_cons_of_neg _ hq, ih]

/-- Ensuring an org a second time (possibly at a different clock and after
intervening writes that leave `orgs` unchanged) finds the same key and
writes nothing. -/
theorem ensureOrg_stable (db db2 : Db) (o : Str) (now now2 : Nat)
    (horgs : db2.orgs = (ensureOrg db o now).2.orgs) :
    ensureOrg db2 o now2 = ((ensureOrg db o now).1, db2) := by
  unfold ensureOrg
  unfold ensureOrg at horgs
  cases h : db.orgs.find? (fun x => x.orgId == o) with
  | some r =>
    rw [h] at horgs
    simp only [h, horgs]
  | none =>
    rw [h] at horgs
    simp only [h] at horgs ⊢
    rw [horgs, List.find?_append, h]
    simp

/-- After a successful `POST /internal/keys`, the BYOK lookup for the
ensured org and the provider finds a row carrying the fresh envelope, and
the `orgs` table is exactly the ensured one. -/
theorem postByok_find (db : Db) (key iv : List Nat) (extOrg provider : Str)
    (p : List Nat) (now : Nat) (ho : extOrg ≠ []) (hpne : p ≠ [])
    (hprov : provider ∈ VALID_PROVIDERS) :
    (∃ row, byokFind (postByokKey db key iv (some extOrg) provider p now).2.byokKeys
        (ensureOrg db extOrg now).1 provider = some row ∧
      row.encryptedKey = encrypt key iv p) ∧
    (postByokKey db key iv (some extOrg) provider p now).2.orgs
      = (ensureOrg db extOrg now).2.orgs := by
  have hcond : ¬ (extOrg = [] ∨ p = [] ∨ ¬ provider ∈ VALID_PROVIDERS) := by
    simp [ho, hpne, hprov]
  simp only [postByokKey, if_neg hcond]
  cases hfind : byokFind (ensureOrg db extOrg now).2.byokKeys
      (ensureOrg db extOrg now).1 provider with
  | some ex =>
    simp only []
    constructor
    · refine ⟨{ ex with encryptedKey := encrypt key iv p, updatedAt := now }, ?_, rfl⟩
      unfold byokFind setByokEnc
      unfold byokFind at hfind
      rw [find?_map_invariant _ _ ?_, hfind, Option.map_some', if_pos rfl]
      intro a
      by_cases h : a.id = ex.id <;> simp [h]
    · trivial
  | none =>
    simp only []
    constructor
    · refine ⟨⟨(ensureOrg db extOrg now).2.nextId, (ensureOrg db extOrg now).1, provider,
        encrypt key iv p, now, now⟩, ?_, rfl⟩
      unfold byokFind
      unfold byokFind at hfind
      rw [List.find?_append, hfind]
      simp
    · trivial

/-- C1: for every encryption key, nonce and plaintext (byte-valued),
decrypting the serialized envelope produced by `encrypt` returns the
plaintext exactly; and at the route level, storing a secret via
`POST /internal/keys` and then fetching it via
`GET /internal/keys/:provider/decrypt` returns the original secret
unchanged. -/
theorem decrypt_encrypt_roundtrip (key iv p : List Nat)
    (hiv : ∀ b ∈ iv, b < 256) (hp : ∀ b ∈ p, b < 256) :
    decrypt key (encrypt key iv p) = some p ∧
    (∀ db extOrg provider hS hM hP now now2 c,
      extOrg ≠ [] → p ≠ [] → provider ∈ VALID_PROVIDERS →
      extractCallerHeaders hS hM hP = some c →
      (internalByokDecrypt (postByokKey db key iv (some extOrg) provider p now).2
        key provider (some extOrg) hS hM hP now2).1 = .okKey provider p) := by
  refine ⟨decrypt_encrypt key iv p hiv hp, ?_⟩
  intro db extOrg provider hS hM hP now now2 c ho hpne hprov hc
  obtain ⟨⟨row, hrow, henc⟩, horgs⟩ :=
    postByok_find db key iv extOrg provider p now ho hpne hprov
  have hens := ensureOrg_stable db (postByokKey db key iv (some extOrg) provider p now).2
    extOrg now now2 horgs
  simp only [internalByokDecrypt, if_neg ho, hc, hens, hrow, henc,
    decrypt_encrypt key iv p hiv hp]

/-- C1 witness: the round trip evaluated at a concrete key, nonce,
plaintext, org and caller. -/
theorem decrypt_encrypt_roundtrip_witness :
    decrypt [1, 2] (encrypt [1, 2] [3, 4] [10, 200]) = some [10, 200] ∧
    (internalByokDecrypt
      (postByokKey emptyDb [1, 2] [3, 4] (some "org-1".data) "anthropic".data [10, 200] 1).2
      [1, 2] "anthropic".data (some "org-1".data)
      (some "apollo".data) (some "POST".data) (some "/leads/search".data) 2).1
      = .okKey "anthropic".data [10, 200] := by
  have h := decrypt_encrypt_roundtrip [1, 2] [3, 4] [10, 200] (by decide) (by decide)
  exact ⟨h.1, h.2 emptyDb "org-1".data "anthropic".data
    (some "apollo".data) (some "POST".data) (some "/leads/search".data) 1 2
    ⟨"apollo".data, "POST".data, "/leads/search".data⟩
    (by decide) (by decide) (by decide) rfl⟩

/-! ### Auth and registry frame lemmas -/

theorem ensureOrg_reqs (db : Db) (o : Str) (now : Nat) :
    (ensureOrg db o now).2.providerRequirements = db.providerRequirements := by
  unfold ensureOrg
  split <;> rfl

theorem apiKeyAuthKey_reqs (k : Str) (db : Db) (now : Nat) :
    (apiKeyAuthKey k db now).2.providerRequirements = db.providerRequirements := by
  simp only [apiKeyAuthKey]
  split
  · split
    · split <;> rfl
    · split <;> rfl
  · rfl

theorem apiKeyAuth_reqs (authz : Option Str) (db : Db) (now : Nat) :
    (apiKeyAuth authz db now).2.providerRequirements = db.providerRequirements := by
  unfold apiKeyAuth
  cases authz with
  | none => rfl
  | some h =>
    by_cases hb : "Bearer ".data.isPrefixOf h
    · simp only [hb, if_true]
      exact apiKeyAuthKey_reqs _ db now
    · simp only [hb]
      rfl

/-- C2: on both decrypt-class routes, the provider-requirement write
happens only when the three caller headers are present (non-empty after
trimming) and the secret lookup succeeded; a missing-header rejection
leaves the store exactly as the route found it (in particular it happens
before any secret lookup), and a not-found outcome leaves the
`provider_requirements` table unchanged. -/
theorem record_only_after_successful_lookup (db : Db) (key : List Nat)
    (provider extOrg : Str) (authz hS hM hP : Option Str) (now : Nat)
    (ho : extOrg ≠ []) :
    (extractCallerHeaders hS hM hP = none →
      internalByokDecrypt db key provider (some extOrg) hS hM hP now
        = (.badReq "Missing required headers: X-Caller-Service, X-Caller-Method, X-Caller-Path", db)) ∧
    ((internalByokDecrypt db key provider (some extOrg) hS hM hP now).1 = .notFound →
      (internalByokDecrypt db key provider (some extOrg) hS hM hP now).2.providerRequirements
        = db.providerRequirements) ∧
    ((internalByokDecrypt db key provider (some extOrg) hS hM hP now).2.providerRequirements
        ≠ db.providerRequirements →
      ∃ c row, extractCallerHeaders hS hM hP = some c ∧
        byokFind (ensureOrg db extOrg now).2.byokKeys (ensureOrg db extOrg now).1 provider
          = some row) ∧
    (∀ orgPk db1, apiKeyAuth authz db now = (.okUser orgPk, db1) →
      extractCallerHeaders hS hM hP = none →
      validateKeysRoute db key authz provider hS hM hP now
        = (.badReq "Missing required headers: X-Caller-Service, X-Caller-Method, X-Caller-Path", db1)) ∧
    ((validateKeysRoute db key authz provider hS hM hP now).1 = .notFound →
      (validateKeysRoute db key authz provider hS hM hP now).2.providerRequirements
        = db.providerRequirements) ∧
    ((validateKeysRoute db key authz provider hS hM hP now).2.providerRequirements
        ≠ db.providerRequirements →
      ∃ c orgPk row, extractCallerHeaders hS hM hP = some c ∧
        (apiKeyAuth authz db now).1 = .okUser orgPk ∧
        byokFind (apiKeyAuth authz db now).2.byokKeys orgPk provider = some row) := by
  refine ⟨?_, ?_, ?_, ?_, ?_, ?_⟩
  · intro h
    simp only [internalByokDecrypt, if_neg ho, h]
  · intro h
    cases hext : extractCallerHeaders hS hM hP with
    | none =>
      simp only [internalByokDecrypt, if_neg ho, hext] at h
      exact DecryptRes.noConfusion h
    | some c =>
      cases hfind : byokFind (ensureOrg db extOrg now).2.byokKeys
          (ensureOrg db extOrg now).1 provider with
      | none =>
        simp only [internalByokDecrypt, if_neg ho, hext, hfind]
        exact ensureOrg_reqs db extOrg now
      | some row =>
        cases hdec : decrypt key row.encryptedKey with
        | none =>
          simp only [internalByokDecrypt, if_neg ho, hext, hfind, hdec] at h
          exact DecryptRes.noConfusion h
        | some pl =>
          simp only [internalByokDecrypt, if_neg ho, hext, hfind, hdec] at h
          exact DecryptRes.noConfusion h
  · intro hne
    cases hext : extractCallerHeaders hS hM hP with
    | none =>
      exfalso; apply hne
      simp only [internalByokDecrypt, if_neg ho, hext]
    | some c =>
      cases hfind : byokFind (ensureOrg db extOrg now).2.byokKeys
          (ensureOrg db extOrg now).1 provider with
      | none =>
        exfalso; apply hne
        simp only [internalByokDecrypt, if_neg ho, hext, hfind]
        exact ensureOrg_reqs db extOrg now
      | some row => exact ⟨c, row, rfl, rfl⟩
  · intro orgPk db1 hauth h
    simp only [validateKeysRoute, hauth, h]
  · intro h
    rcases hauthr : apiKeyAuth authz db now with ⟨r, db1⟩
    have hreqs : db1.providerRequirements = db.providerRequirements := by
      have := apiKeyAuth_reqs authz db now
      rw [hauthr] at this
      exact this
    cases r with
    | errRes s m =>
      simp only [validateKeysRoute, hauthr] at h
      exact ValidateRes.noConfusion h
    | okApp a =>
      simp only [validateKeysRoute, hauthr] at h
      exact ValidateRes.noConfusion h
    | okUser orgPk =>
      cases hext : extractCallerHeaders hS hM hP with
      | none =>
        simp only [validateKeysRoute, hauthr, hext] at h
        exact ValidateRes.noConfusion h
      | some c =>
        cases hfind : byokFind db1.byokKeys orgPk provider with
        | none =>
          simp only [validateKeysRoute, hauthr, hext, hfind]
          exact hreqs
        | some row =>
          cases hdec : decrypt key row.encryptedKey with
          | none =>
            simp only [validateKeysRoute, hauthr, hext, hfind, hdec] at h
            exact ValidateRes.noConfusion h
          | some pl =>
            simp only [validateKeysRoute, hauthr, hext, hfind, hdec] at h
            exact ValidateRes.noConfusion h
  · intro hne
    rcases hauthr : apiKeyAuth authz db now with ⟨r, db1⟩
    have hreqs : db1.providerRequirements = db.providerRequirements := by
      have := apiKeyAuth_reqs authz db now
      rw [hauthr] at this
      exact this
    cases r with
    | errRes s m =>
      exfalso; apply hne
      simp only [validateKeysRoute, hauthr]
      exact hreqs
    | okApp a =>
      exfalso; apply hne
      simp only [validateKeysRoute, hauthr]
      exact hreqs
    | okUser orgPk =>
      cases hext : extractCallerHeaders hS hM hP with
      | none =>
        exfalso; apply hne
        simp only [validateKeysRoute, hauthr, hext]
        exact hreqs
      | some c =>
        cases hfind : byokFind db1.byokKeys orgPk provider with
        | none =>
          exfalso; apply hne
          simp only [validateKeysRoute, hauthr, hext, hfind]
          exact hreqs
        | some row =>
          exact ⟨c, orgPk, row, rfl, rfl, hfind⟩

/-- C2 witness: a decrypt request with the caller headers missing is
rejected with the header error and leaves the store untouched. -/
theorem record_only_after_successful_lookup_witness :
    internalByokDecrypt emptyDb [] "anthropic".data (some "org-1".data) none none none 0
      = (.badReq "Missing required headers: X-Caller-Service, X-Caller-Method, X-Caller-Path",
         emptyDb) :=
  (record_only_after_successful_lookup emptyDb [] "anthropic".data "org-1".data
    none none none none 0 (by decide)).1 rfl

/-- C3: a freshly generated user credential (current `distrib.` family) is
classified as a user key and is well-formed, yet `apiKeyAuth` rejects it
with the format error — before any hash or lookup — even though its hash
is stored: the hardcoded `mcpf_` gate contradicts the claim (and the
repository's own integration test) that resolution succeeds for either
prefix family. -/
theorem apiKeyAuth_rejects_generated_distrib_key :
    isUserApiKey (mkUserApiKey hex40a) = true ∧
    isValidApiKeyFormat (mkUserApiKey hex40a) = true ∧
    dbC3.apiKeys.map (fun r => r.keyHash) = [hashApiKey (mkUserApiKey hex40a)] ∧
    apiKeyAuth (some ("Bearer ".data ++ mkUserApiKey hex40a)) dbC3 7
      = (.errRes 401 "Invalid API key format", dbC3) :=
  ⟨rfl, rfl, rfl, rfl⟩

/-- C4: `serviceKeyAuth` compares the supplied secret to the configured
secret without trimming either side, so the configured value with trailing
whitespace (the exact scenario the unit test asserts must authenticate)
is rejected, although the two values agree after trimming. -/
theorem serviceKeyAuth_rejects_whitespace_padded_secret :
    serviceKeyAuth (some "test-service-key-12345  \n".data)
      (some "test-service-key-12345".data) none = SvcAuth.rejected ∧
    trim "test-service-key-12345  \n".data = trim "test-service-key-12345".data :=
  ⟨rfl, rfl⟩

/-! ### Upsert idempotence lemmas -/

/-- Filtering a map whose function preserves the predicate preserves the
match count. -/
theorem length_filter_map_invariant {α : Type} (g : α → α) (q : α → Bool)
    (h : ∀ a, q (g a) = q a) :
    ∀ l : List α, ((l.map g).filter q).length = (l.filter q).length := by
  intro l
  induction l with
  | nil => rfl
  | cons a t ih =>
    by_cases hq : q a
    · rw [List.map_cons, List.filter_cons_of_pos (by rw [h]; exact hq),
        List.filter_cons_of_pos hq]
      simp [ih]
    · rw [List.map_cons, List.filter_cons_of_neg (by rw [h]; exact hq),
        List.filter_cons_of_neg hq, ih]

/-- Updating only `lastSeenAt` does not change whether a row matches the
4-tuple. -/
theorem reqMatches_setLastSeen (c : CallerInfo) (p : Str) (rid : Nat) (t : Nat) :
    ∀ r : ProviderReqRow,
      reqMatches (if r.id = rid then { r with lastSeenAt := t } else r) c p
        = reqMatches r c p := by
  intro r
  by_cases h : r.id = rid <;> simp [h, reqMatches]

/-- A zero match count means the registry read finds nothing. -/
theorem countReq_zero (db : Db) (c : CallerInfo) (p : Str)
    (h : countReq db c p = 0) : recordRead db c p = none := by
  unfold countReq at h
  unfold recordRead
  rw [List.length_eq_zero, List.filter_eq_nil_iff] at h
  rw [List.find?_eq_none]
  exact h

/-- One `record` call on a tuple that already has a row: the row keeps all
its fields except `lastSeenAt`, and the match count is unchanged. -/
theorem record_found (db : Db) (c : CallerInfo) (p : Str) (t : Nat)
    (x : ProviderReqRow) (hf : recordRead db c p = some x) :
    recordRead (recordProviderRequirement db c p t) c p
      = some { x with lastSeenAt := t } ∧
    countReq (recordProviderRequirement db c p t) c p = countReq db c p := by
  unfold recordRead at hf
  unfold recordProviderRequirement
  rw [hf]
  constructor
  · show (setLastSeen db.providerRequirements x.id t).find? (fun r => reqMatches r c p)
      = some { x with lastSeenAt := t }
    unfold setLastSeen
    rw [find?_map_invariant _ _ (reqMatches_setLastSeen c p x.id t), hf,
      Option.map_some', if_pos rfl]
  · show ((setLastSeen db.providerRequirements x.id t).filter
      (fun r => reqMatches r c p)).length = _
    exact length_filter_map_invariant _ _ (reqMatches_setLastSeen c p x.id t) _

/-- One `record` call on an unseen tuple: a fresh row carrying the call
time as both timestamps is appended, and the match count grows by one. -/
theorem record_notfound (db : Db) (c : CallerInfo) (p : Str) (t : Nat)
    (hf : recordRead db c p = none) :
    recordRead (recordProviderRequirement db c p t) c p
      = some ⟨db.nextId, c.service, c.method, c.path, p, t, t⟩ ∧
    countReq (recordProviderRequirement db c p t) c p = countReq db c p + 1 := by
  unfold recordRead at hf
  unfold recordProviderRequirement
  rw [hf]
  have hnew : reqMatches ⟨db.nextId, c.service, c.method, c.path, p, t, t⟩ c p = true := by
    simp [reqMatches]
  constructor
  · show (db.providerRequirements ++
        [(⟨db.nextId, c.service, c.method, c.path, p, t, t⟩ : ProviderReqRow)]).find?
      (fun r => reqMatches r c p) = _
    rw [List.find?_append, hf]
    simp [hnew]
  · show ((db.providerRequirements ++
        [(⟨db.nextId, c.service, c.method, c.path, p, t, t⟩ : ProviderReqRow)]).filter
      (fun r => reqMatches r c p)).length = _
    rw [List.filter_append]
    simp [hnew, countReq]

/-- Folding further `record` calls over a store that already has the
tuple's row: the row persists with only `lastSeenAt` advanced to the last
call time, the match count never changes, and the observed `lastSeenAt`
trace is exactly the call-time sequence. -/
theorem fold_record_steady (c : CallerInfo) (p : Str) :
    ∀ (ts : List Nat) (db : Db) (x : ProviderReqRow),
      recordRead db c p = some x →
      recordRead (foldRecord db c p ts) c p
        = some { x with lastSeenAt := ts.getLastD x.lastSeenAt } ∧
      countReq (foldRecord db c p ts) c p = countReq db c p ∧
      lastSeenTrace db c p ts = ts := by
  intro ts
  induction ts with
  | nil =>
    intro db x hx
    exact ⟨hx, rfl, rfl⟩
  | cons t ts ih =>
    intro db x hx
    obtain ⟨h1, h2⟩ := record_found db c p t x hx
    obtain ⟨ih1, ih2, ih3⟩ := ih (recordProviderRequirement db c p t) _ h1
    have hfold : foldRecord db c p (t :: ts)
        = foldRecord (recordProviderRequirement db c p t) c p ts := rfl
    refine ⟨?_, ?_, ?_⟩
    · rw [hfold, ih1, List.getLastD_cons]
    · rw [hfold, ih2, h2]
    · show ((recordRead (recordProviderRequirement db c p t) c p).map
          (fun r => r.lastSeenAt)).getD 0 ::
        lastSeenTrace (recordProviderRequirement db c p t) c p ts = t :: ts
      rw [h1, ih3]
      rfl

/-- C5: N sequential `record` calls (N at least 1, at non-decreasing call
times) for one previously unseen (service, method, path, provider) tuple
leave exactly one stored row for that tuple; its `lastSeenAt` trace across
the calls is the non-decreasing call-time sequence, and its `createdAt`
stays the first call's time after every call. -/
theorem record_upsert_idempotent (db : Db) (c : CallerInfo) (p : Str)
    (t0 : Nat) (ts : List Nat) (h0 : countReq db c p = 0)
    (hchain : List.Chain' (· ≤ ·) (t0 :: ts)) :
    countReq (foldRecord db c p (t0 :: ts)) c p = 1 ∧
    (recordRead (foldRecord db c p (t0 :: ts)) c p).map (fun r => r.createdAt)
      = some t0 ∧
    lastSeenTrace db c p (t0 :: ts) = t0 :: ts ∧
    List.Chain' (· ≤ ·) (lastSeenTrace db c p (t0 :: ts)) ∧
    (∀ k, (recordRead (foldRecord db c p (t0 :: ts.take k)) c p).map
      (fun r => r.createdAt) = some t0) := by
  have hf := countReq_zero db c p h0
  obtain ⟨h1, h2⟩ := record_notfound db c p t0 hf
  have hfold : ∀ us, foldRecord db c p (t0 :: us)
      = foldRecord (recordProviderRequirement db c p t0) c p us := fun us => rfl
  obtain ⟨s1, s2, s3⟩ := fold_record_steady c p ts (recordProviderRequirement db c p t0) _ h1
  have htrace : lastSeenTrace db c p (t0 :: ts) = t0 :: ts := by
    show ((recordRead (recordProviderRequirement db c p t0) c p).map
        (fun r => r.lastSeenAt)).getD 0 ::
      lastSeenTrace (recordProviderRequirement db c p t0) c p ts = t0 :: ts
    rw [h1, s3]
    rfl
  refine ⟨?_, ?_, htrace, ?_, ?_⟩
  · rw [hfold, s2, h2, h0]
  · rw [hfold, s1]
    rfl
  · rw [htrace]
    exact hchain
  · intro k
    obtain ⟨s1k, _, _⟩ :=
      fold_record_steady c p (ts.take k) (recordProviderRequirement db c p t0) _ h1
    rw [hfold, s1k]
    rfl

/-- C5 witness: four sequential observations of the apollo leads-search
endpoint for anthropic, at times 1, 2, 2, 5. -/
theorem record_upsert_idempotent_witness :
    countReq (foldRecord emptyDb cAp pAnth [1, 2, 2, 5]) cAp pAnth = 1 ∧
    lastSeenTrace emptyDb cAp pAnth [1, 2, 2, 5] = [1, 2, 2, 5] := by
  have h := record_upsert_idempotent emptyDb cAp pAnth 1 [2, 2, 5] (by decide)
    (by refine List.Chain'.cons (by omega) (List.Chain'.cons (by omega)
      (List.Chain'.cons (by omega) ?_)); exact List.chain'_singleton 5)
  exact ⟨h.1, h.2.2.1⟩

/-- C6 counterexample: the read step of two concurrent first observations
of the same tuple can both run against the initial store and both see "no
row", so both dependent writes take the insert path and the store ends
with two rows for the tuple — refuting the claim that the upsert is a
single atomic insert-on-conflict under which this cannot happen. -/
theorem record_interleaved_first_observations_both_insert :
    recordRead emptyDb cAp pAnth = none ∧
    countReq
      (recordWrite (recordWrite emptyDb cAp pAnth (recordRead emptyDb cAp pAnth) 1)
        cAp pAnth (recordRead emptyDb cAp pAnth) 2) cAp pAnth = 2 :=
  ⟨rfl, rfl⟩

/-- C6 (amended): `recordProviderRequirement` is exactly an
application-level existence check followed by a dependent conditional
write (check-then-act), and interleaving the two steps of two first
observations of one tuple can insert the tuple twice. -/
theorem record_is_check_then_act :
    (∀ db c p t,
      recordProviderRequirement db c p t = recordWrite db c p (recordRead db c p) t) ∧
    (∃ db c p t1 t2, recordRead db c p = none ∧
      countReq (recordWrite (recordWrite db c p none t1) c p none t2) c p = 2) := by
  refine ⟨fun db c p t => ?_, ⟨emptyDb, cAp, pAnth, 1, 2, rfl, rfl⟩⟩
  unfold recordProviderRequirement recordWrite recordRead
  cases db.providerRequirements.find? (fun r => reqMatches r c p) <;> rfl

/-- C7 counterexample: the record side trims the caller path (storing
`/a` for header ` /a `), but the batch query uses the endpoint path
verbatim, so the endpoint whose record-normalization equals the stored
tuple exactly finds nothing — refuting "each endpoint is normalized
exactly as record normalizes it". -/
theorem query_path_not_trimmed_cex :
    extractCallerHeaders (some "apollo".data) (some "post".data) (some " /a ".data)
      = some ⟨"apollo".data, "POST".data, "/a".data⟩ ∧
    trim " /a ".data = "/a".data ∧
    (queryCore
      (recordProviderRequirement emptyDb ⟨"apollo".data, "POST".data, "/a".data⟩
        "anthropic".data 5).providerRequirements
      [⟨"apollo".data, "post".data, " /a ".data⟩]).1 = [] ∧
    (queryCore
      (recordProviderRequirement emptyDb ⟨"apollo".data, "POST".data, "/a".data⟩
        "anthropic".data 5).providerRequirements
      [⟨"apollo".data, "post".data, "/a".data⟩]).1
      = [⟨"apollo".data, "POST".data, "/a".data, "anthropic".data⟩] :=
  ⟨rfl, rfl, rfl, rfl⟩

/-! ### Query characterization lemmas -/

theorem mem_queryMatches (rows : List ProviderReqRow) :
    ∀ (es : List Endpoint) (v : ReqView),
      v ∈ queryMatches rows es ↔
        ∃ e ∈ es, ∃ r ∈ rows, endpointMatches r e = true ∧ v = viewOf r := by
  intro es
  induction es with
  | nil => simp [queryMatches]
  | cons e es ih =>
    intro v
    simp only [queryMatches, List.mem_append, List.mem_map, List.mem_filter, ih,
      List.mem_cons]
    constructor
    · rintro (⟨r, ⟨hr, hm⟩, hv⟩ | ⟨e2, he2, r, hr, hm, hv⟩)
      · exact ⟨e, Or.inl rfl, r, hr, hm, hv.symm⟩
      · exact ⟨e2, Or.inr he2, r, hr, hm, hv⟩
    · rintro ⟨e2, (rfl | he2), r, hr, hm, hv⟩
      · exact Or.inl ⟨r, ⟨hr, hm⟩, hv.symm⟩
      · exact Or.inr ⟨e2, he2, r, hr, hm, hv⟩

theorem mem_dedupFirst : ∀ (l : List Str) (a : Str), a ∈ dedupFirst l ↔ a ∈ l := by
  intro l
  induction l using dedupFirst.induct with
  | case1 => simp [dedupFirst]
  | case2 x t ih =>
    intro a
    rw [show dedupFirst (x :: t) = x :: dedupFirst (t.filter (fun b => !(b == x))) from by
      simp [dedupFirst]]
    simp only [List.mem_cons, ih, List.mem_filter, Bool.not_eq_eq_eq_not, Bool.not_true,
      beq_eq_false_iff_ne, ne_eq]
    constructor
    · rintro (rfl | ⟨ha, _⟩)
      · exact Or.inl rfl
      · exact Or.inr ha
    · rintro (rfl | ha)
      · exact Or.inl rfl
      · by_cases hx : a = x
        · exact Or.inl hx
        · exact Or.inr ⟨ha, hx⟩

theorem nodup_dedupFirst : ∀ l : List Str, (dedupFirst l).Nodup := by
  intro l
  induction l using dedupFirst.induct with
  | case1 => simp [dedupFirst]
  | case2 x t ih =>
    rw [show dedupFirst (x :: t) = x :: dedupFirst (t.filter (fun b => !(b == x))) from by
      simp [dedupFirst]]
    refine List.nodup_cons.mpr ⟨?_, ih⟩
    intro hx
    rw [mem_dedupFirst, List.mem_filter] at hx
    simp at hx

theorem mem_sortStr (l : List Str) (a : Str) : a ∈ sortStr l ↔ a ∈ l :=
  (List.perm_insertionSort _ l).mem_iff

theorem nodup_sortStr (l : List Str) (h : l.Nodup) : (sortStr l).Nodup :=
  (List.perm_insertionSort _ l).nodup_iff.mpr h

/-- C7 (amended): the query normalizes each endpoint's service to
lowercase and method to uppercase (as record does) but compares the path
verbatim (record trims it); under that normalization the returned matches
are exactly the projections of stored rows matching some endpoint (so
endpoints with no match contribute nothing, with no error), and the
provider list is the sorted, de-duplicated set of providers over all
matches. -/
theorem query_returns_matches_and_sorted_providers (rows : List ProviderReqRow)
    (endpoints : List Endpoint) :
    (∀ v, v ∈ (queryCore rows endpoints).1 ↔
      ∃ e ∈ endpoints, ∃ r ∈ rows, endpointMatches r e = true ∧ v = viewOf r) ∧
    (queryCore rows endpoints).2.Sorted (· ≤ ·) ∧
    (queryCore rows endpoints).2.Nodup ∧
    (∀ s, s ∈ (queryCore rows endpoints).2 ↔
      ∃ v ∈ (queryCore rows endpoints).1, v.provider = s) := by
  refine ⟨mem_queryMatches rows endpoints, ?_, ?_, ?_⟩
  · exact List.sorted_insertionSort _ _
  · exact nodup_sortStr _ (nodup_dedupFirst _)
  · intro s
    show s ∈ sortStr (dedupFirst ((queryMatches rows endpoints).map (fun r => r.provider))) ↔ _
    rw [mem_sortStr, mem_dedupFirst, List.mem_map]
    constructor
    · rintro ⟨v, hv, rfl⟩
      exact ⟨v, hv, rfl⟩
    · rintro ⟨v, hv, rfl⟩
      exact ⟨v, hv, rfl⟩

/-- C8 counterexample: an ill-formed token and a well-formed token with no
stored credential both yield 401, but with different response bodies
("Invalid API key format" vs "Invalid API key"), so the outcomes are not
uniform and the response does reveal which half of the check failed. -/
theorem apiKeyAuth_distinct_error_messages :
    apiKeyAuth (some "Bearer xyz".data) emptyDb 0
      = (.errRes 401 "Invalid API key format", emptyDb) ∧
    apiKeyAuth (some ("Bearer ".data ++ userKeyRaw)) emptyDb 0
      = (.errRes 401 "Invalid API key", emptyDb) ∧
    ("Invalid API key format" : String) ≠ "Invalid API key" :=
  ⟨rfl, rfl, by decide⟩

/-! ### Bearer reduction lemmas -/

theorem bearer_pref (k : Str) : "Bearer ".data.isPrefixOf ("Bearer ".data ++ k) = true := by
  rw [List.isPrefixOf_iff_prefix]
  exact List.prefix_append _ _

theorem bearer_drop (k : Str) : ("Bearer ".data ++ k).drop 7 = k := by
  rw [show (7 : Nat) = ("Bearer ".data).length from rfl, List.drop_left]

theorem apiKeyAuth_bearer (k : Str) (db : Db) (now : Nat) :
    apiKeyAuth (some ("Bearer ".data ++ k)) db now = apiKeyAuthKey k db now := by
  simp [apiKeyAuth, bearer_pref, bearer_drop]

theorem apiKeyAuthKey_status (k : Str) (db : Db) (now : Nat) (s : Nat) (m : String)
    (h : (apiKeyAuthKey k db now).1 = .errRes s m) : s = 401 := by
  simp only [apiKeyAuthKey] at h
  split at h
  · split at h
    · split at h
      · injection h with h1 _; exact h1.symm
      · exact AuthRes.noConfusion h
    · split at h
      · injection h with h1 _; exact h1.symm
      · exact AuthRes.noConfusion h
  · injection h with h1 _; exact h1.symm

/-- C8 (amended): every failing outcome of the identity-credential path
has HTTP status 401; within the 401s, an ill-formed token yields the body
"Invalid API key format" while a well-formed (`mcpf_`-gated) token whose
hash matches no stored credential yields "Invalid API key", so the status
is uniform but the message reveals which half of the check failed. -/
theorem apiKeyAuth_failures_all_401 (authz : Option Str) (db : Db) (now : Nat) :
    (∀ s m, (apiKeyAuth authz db now).1 = .errRes s m → s = 401) ∧
    (∀ k, authz = some ("Bearer ".data ++ k) → "mcpf_".data.isPrefixOf k = false →
      (apiKeyAuth authz db now).1 = .errRes 401 "Invalid API key format") ∧
    (∀ k, authz = some ("Bearer ".data ++ k) → "mcpf_".data.isPrefixOf k = true →
      isAppApiKey k = true →
      db.apps.find? (fun a => a.keyHash == hashApiKey k) = none →
      (apiKeyAuth authz db now).1 = .errRes 401 "Invalid API key") ∧
    (∀ k, authz = some ("Bearer ".data ++ k) → "mcpf_".data.isPrefixOf k = true →
      isAppApiKey k = false →
      db.apiKeys.find? (fun r => r.keyHash == hashApiKey k) = none →
      (apiKeyAuth authz db now).1 = .errRes 401 "Invalid API key") := by
  refine ⟨?_, ?_, ?_, ?_⟩
  · intro s m h
    cases authz with
    | none =>
      simp only [apiKeyAuth] at h
      injection h with h1 _; exact h1.symm
    | some v =>
      by_cases hb : "Bearer ".data.isPrefixOf v
      · simp only [apiKeyAuth, hb, if_true] at h
        exact apiKeyAuthKey_status _ db now s m h
      · simp only [apiKeyAuth, hb] at h
        injection h with h1 _; exact h1.symm
  · rintro k rfl hpre
    rw [apiKeyAuth_bearer]
    simp only [apiKeyAuthKey, hpre]
    rfl
  · rintro k rfl hpre happ hfind
    rw [apiKeyAuth_bearer]
    simp only [apiKeyAuthKey, hpre, if_true, happ, hfind]
  · rintro k rfl hpre happ hfind
    rw [apiKeyAuth_bearer]
    simp only [apiKeyAuthKey, hpre, if_true, happ, hfind]
    rfl

/-- C8 witness: the two 401 bodies evaluated at an ill-formed token and at
an unknown well-formed token. -/
theorem apiKeyAuth_failures_all_401_witness :
    (apiKeyAuth (some ("Bearer ".data ++ "xyz".data)) emptyDb 0).1
      = .errRes 401 "Invalid API key format" ∧
    (apiKeyAuth (some ("Bearer ".data ++ userKeyRaw)) emptyDb 0).1
      = .errRes 401 "Invalid API key" := by
  constructor
  · exact (apiKeyAuth_failures_all_401 (some ("Bearer ".data ++ "xyz".data)) emptyDb 0).2.1
      "xyz".data rfl (by decide)
  · exact (apiKeyAuth_failures_all_401 (some ("Bearer ".data ++ userKeyRaw)) emptyDb 0).2.2.2
      userKeyRaw rfl (by decide) (by decide) rfl

/-- C9 counterexample: a successful app-key resolution returns the app
identity but leaves the store entirely unchanged — no last-used marker is
written for app-kind credentials (the `apps` table has no such column). -/
theorem app_key_resolution_no_last_used_update :
    apiKeyAuth (some ("Bearer ".data ++ appKeyRaw)) dbApp 7
      = (.okApp "frontend".data, dbApp) :=
  rfl

/-- C9 (amended): a successful app-kind resolution leaves the store
entirely unchanged (the `apps` table has no last-used column), while a
successful user-kind resolution sets exactly the resolved credential
row's `lastUsedAt` to now — `setLastUsed` touches no other field and no
other table. -/
theorem lastUsed_update_user_only (authz : Option Str) (db : Db) (now : Nat) :
    (∀ a, (apiKeyAuth authz db now).1 = .okApp a → (apiKeyAuth authz db now).2 = db) ∧
    (∀ o, (apiKeyAuth authz db now).1 = .okUser o →
      ∃ k row, authz = some ("Bearer ".data ++ k) ∧
        db.apiKeys.find? (fun r => r.keyHash == hashApiKey k) = some row ∧
        o = row.orgId ∧
        (apiKeyAuth authz db now).2
          = { db with apiKeys := setLastUsed db.apiKeys row.id now }) := by
  cases authz with
  | none =>
    exact ⟨fun a h => AuthRes.noConfusion h, fun o h => AuthRes.noConfusion h⟩
  | some v =>
    by_cases hb : "Bearer ".data.isPrefixOf v
    · obtain ⟨t, ht⟩ := List.isPrefixOf_iff_prefix.mp hb
      obtain rfl := ht
      rw [apiKeyAuth_bearer]
      by_cases hpre : "mcpf_".data.isPrefixOf t = true
      · by_cases happ : isAppApiKey t = true
        · constructor
          · intro a h
            simp only [apiKeyAuthKey]
            rw [if_pos hpre, if_pos happ]
            cases db.apps.find? (fun a => a.keyHash == hashApiKey t) <;> rfl
          · intro o h
            simp only [apiKeyAuthKey] at h
            rw [if_pos hpre, if_pos happ] at h
            cases hfa : db.apps.find? (fun a => a.keyHash == hashApiKey t) with
            | none => rw [hfa] at h; exact AuthRes.noConfusion h
            | some app => rw [hfa] at h; exact AuthRes.noConfusion h
        · constructor
          · intro a h
            simp only [apiKeyAuthKey] at h
            rw [if_pos hpre, if_neg happ] at h
            cases hfa : db.apiKeys.find? (fun r => r.keyHash == hashApiKey t) with
            | none => rw [hfa] at h; exact AuthRes.noConfusion h
            | some row => rw [hfa] at h; exact AuthRes.noConfusion h
          · intro o h
            simp only [apiKeyAuthKey] at h ⊢
            rw [if_pos hpre, if_neg happ] at h ⊢
            cases hfa : db.apiKeys.find? (fun r => r.keyHash == hashApiKey t) with
            | none => rw [hfa] at h; exact AuthRes.noConfusion h
            | some row =>
              rw [hfa] at h
              injection h with h1
              exact ⟨t, row, rfl, hfa, h1.symm, rfl⟩
      · constructor
        · intro a h
          simp only [apiKeyAuthKey] at h
          rw [if_neg hpre] at h
          exact AuthRes.noConfusion h
        · intro o h
          simp only [apiKeyAuthKey] at h
          rw [if_neg hpre] at h
          exact AuthRes.noConfusion h
    · constructor
      · intro a h
        simp only [apiKeyAuth, hb] at h
        exact AuthRes.noConfusion h
      · intro o h
        simp only [apiKeyAuth, hb] at h
        exact AuthRes.noConfusion h

/-- C9 witness: resolving the stored legacy user credential at time 9
returns its org and rewrites exactly its row's `lastUsedAt`. -/
theorem lastUsed_update_user_only_witness :
    ∃ k row, (some ("Bearer ".data ++ userKeyRaw) : Option Str)
        = some ("Bearer ".data ++ k) ∧
      dbUser.apiKeys.find? (fun r => r.keyHash == hashApiKey k) = some row ∧
      (0 : Nat) = row.orgId ∧
      (apiKeyAuth (some ("Bearer ".data ++ userKeyRaw)) dbUser 9).2
        = { dbUser with apiKeys := setLastUsed dbUser.apiKeys row.id 9 } :=
  (lastUsed_update_user_only (some ("Bearer ".data ++ userKeyRaw)) dbUser 9).2 0 rfl

/-- C10: every org-scoped internal operation — including the read-only
lists `GET /internal/api-keys` and `GET /internal/keys` and the decrypt
lookup — silently inserts a fresh org row when the supplied orgId is
unknown (`ensureOrg`); the reads then succeed with empty lists and the
decrypt lookup yields the secret-not-found 404, never an org-not-found
error, so even a pure read mutates the store for unknown orgs. -/
theorem ensureOrg_silent_creation (db : Db) (encKey : List Nat)
    (provider extOrg : Str) (hS hM hP : Option Str) (now : Nat)
    (hwf : DbWf db) (ho : extOrg ≠ [])
    (hunk : db.orgs.find? (fun o => o.orgId == extOrg) = none) :
    (ensureOrg db extOrg now).2.orgs = db.orgs ++ [⟨db.nextId, extOrg, now⟩] ∧
    listApiKeys db (some extOrg) now = (.okKeys [], (ensureOrg db extOrg now).2) ∧
    listByokKeys db encKey (some extOrg) now = (.okByok [], (ensureOrg db extOrg now).2) ∧
    (extractCallerHeaders hS hM hP ≠ none →
      internalByokDecrypt db encKey provider (some extOrg) hS hM hP now
        = (.notFound, (ensureOrg db extOrg now).2)) := by
  have he : ensureOrg db extOrg now = (db.nextId,
      { db with nextId := db.nextId + 1,
                orgs := db.orgs ++ [⟨db.nextId, extOrg, now⟩] }) := by
    unfold ensureOrg
    rw [hunk]
  have hapi : db.apiKeys.filter (fun k => k.orgId == db.nextId) = [] := by
    rw [List.filter_eq_nil_iff]
    intro k hk
    have := hwf.2.1 k hk
    simp only [beq_iff_eq]
    omega
  have hbyok : db.byokKeys.filter (fun k => k.orgPk == db.nextId) = [] := by
    rw [List.filter_eq_nil_iff]
    intro k hk
    have := hwf.2.2 k hk
    simp only [beq_iff_eq]
    omega
  have hbfind : byokFind db.byokKeys db.nextId provider = none := by
    unfold byokFind
    rw [List.find?_eq_none]
    intro k hk
    have := hwf.2.2 k hk
    simp only [Bool.and_eq_true, beq_iff_eq, not_and]
    intro hpk
    omega
  refine ⟨by rw [he], ?_, ?_, ?_⟩
  · simp only [listApiKeys, if_neg ho, he, hapi, List.map_nil]
  · simp only [listByokKeys, if_neg ho, he, hbyok, List.mapM_nil]
  · intro hhdr
    cases hext : extractCallerHeaders hS hM hP with
    | none => exact absurd hext hhdr
    | some c =>
      simp only [internalByokDecrypt, if_neg ho, hext, he, hbfind]

/-- C10 witness: listing keys for an unknown org on the empty store
returns an empty list and inserts the org row. -/
theorem ensureOrg_silent_creation_witness :
    (ensureOrg emptyDb "org-1".data 3).2.orgs = [⟨0, "org-1".data, 3⟩] ∧
    listApiKeys emptyDb (some "org-1".data) 3
      = (.okKeys [], (ensureOrg emptyDb "org-1".data 3).2) := by
  have h := ensureOrg_silent_creation emptyDb [] "anthropic".data "org-1".data
    none none none 3 (by decide) (by decide) rfl
  exact ⟨h.1, h.2.1⟩

end KeyService
